import Mathlib

/-!
# Verification of the elastic-mcp aggregation engine

Shallow embedding of the `elastic-mcp` crate: the composite identifier codec
(`servers/aggregate.rs`, `CompositeId`), the aggregate server's request routing
(`AggregateServer`), the proxy's advertised info (`servers/proxy.rs`), and the
Elasticsearch tool helpers (`servers/elasticsearch/base_tools.rs`).

Rust strings are `String`/`List Char`; `u32` is `Nat` with explicit `< 2 ^ 32`
bounds where the source type matters; fallible code returns `Except`;
`serde_json::Value` is the inductive `Json`; a `HashMap<HandlerId, _>` built by
enumerating a vector is a `List` indexed by position; the unguarded `loop` that
drains pagination cursors takes explicit fuel.
-/

/-- Model of `serde_json::Value`. Numbers are collapsed to `Int` (the claims
never inspect numeric payloads). Objects are association lists in insertion
order. -/
inductive Json where
  | null
  | bool (b : Bool)
  | num (n : Int)
  | str (s : String)
  | arr (elems : List Json)
  | obj (fields : List (String × Json))

/-- The error constructors of `rmcp::Error` used by the embedded code:
`resource_not_found(payload)`, `method_not_found::<M>()`, and
`internal_error(message)`. -/
inductive McpMethod where
  | subscribe
  | unsubscribe
  | setLevel
  | complete
deriving DecidableEq, Repr

inductive McpError where
  | resourceNotFound (payload : String)
  | methodNotFound (method : McpMethod)
  | internalError (message : String)
deriving DecidableEq, Repr

/-! ## Decimal formatting and parsing of `u32`

`CompositeId::compose` uses `format!("{}_{}", item_id, handler_id.0)`; the
decimal rendering of a `u32` is `natToDigits`. `CompositeId::split` uses
`str::parse::<u32>()`, which accepts an optional leading `+`, then one or more
ASCII digits, and rejects values that overflow `u32`; this is `parseU32`. -/

def digitVal (c : Char) : Nat := c.toNat - 48

/-- Decimal digits of a natural number, most significant first
(the rendering of Rust's `Display` for unsigned integers). -/
def natToDigits (n : Nat) : List Char :=
  if h : n < 10 then [Nat.digitChar n]
  else natToDigits (n / 10) ++ [Nat.digitChar (n % 10)]
decreasing_by exact Nat.div_lt_self (by omega) (by omega)

/-- All-digit check plus accumulation, the digit phase of `u32::from_str`. -/
def parseDigits (cs : List Char) : Option Nat :=
  match cs with
  | [] => none
  | _ :: _ =>
    if cs.all Char.isDigit then some (cs.foldl (fun acc c => acc * 10 + digitVal c) 0)
    else none

/-- `u32::from_str` accepts a single leading `+`. -/
def stripPlus (cs : List Char) : List Char :=
  match cs with
  | [] => []
  | c :: rest => if c = '+' then rest else c :: rest

/-- Model of `str::parse::<u32>()`, as `Option Nat`. -/
def parseU32 (cs : List Char) : Option Nat :=
  match parseDigits (stripPlus cs) with
  | some n => if n < 2 ^ 32 then some n else none
  | none => none

/-- Model of `str::rsplit_once(c)`: split at the last occurrence of `c`,
returning the parts before and after it. -/
def rsplitOnceChar (c : Char) : List Char → Option (List Char × List Char)
  | [] => none
  | a :: rest =>
    match rsplitOnceChar c rest with
    | some (l, r) => some (a :: l, r)
    | none => if a = c then some ([], rest) else none

/-! ## The composite identifier codec (`CompositeId` in aggregate.rs) -/

namespace CompositeId

/-- `CompositeId::compose`: `format!("{}_{}", item_id, handler_id.0)`. -/
def compose (handlerId : Nat) (itemId : String) : String :=
  itemId ++ "_" ++ String.mk (natToDigits handlerId)

/-- `CompositeId::split`: split at the rightmost `_`, parse the suffix as
`u32`; any failure is `resource_not_found` carrying the whole input. -/
def split (id : String) : Except McpError (Nat × String) :=
  match rsplitOnceChar '_' id.data with
  | some (item, tool) =>
    match parseU32 tool with
    | some toolId => .ok (toolId, String.mk item)
    | none => .error (.resourceNotFound id)
  | none => .error (.resourceNotFound id)

end CompositeId

/-- `x` ends with `_<digits>`: at least one trailing ASCII digit, preceded
immediately by an underscore. -/
def endsWithUnderscoreDigits (s : String) : Bool :=
  let r := s.data.reverse
  let ds := r.takeWhile Char.isDigit
  !ds.isEmpty &&
    (match r.drop ds.length with
     | '_' :: _ => true
     | _ => false)

/-! ### Codec lemmas -/

theorem rsplitOnceChar_eq_none (c : Char) (l : List Char) (h : c ∉ l) :
    rsplitOnceChar c l = none := by
  induction l with
  | nil => rfl
  | cons a rest ih =>
    have ha : a ≠ c := fun hac => h (hac ▸ List.mem_cons_self a rest)
    have hrest : c ∉ rest := fun hm => h (List.mem_cons_of_mem a hm)
    simp [rsplitOnceChar, ih hrest, ha]

theorem rsplitOnceChar_append (c : Char) (x d : List Char) (h : c ∉ d) :
    rsplitOnceChar c (x ++ c :: d) = some (x, d) := by
  induction x with
  | nil => simp [rsplitOnceChar, rsplitOnceChar_eq_none c d h]
  | cons a rest ih => simp [rsplitOnceChar, ih]

theorem digitChar_props :
    ∀ m, m < 10 →
      ((Nat.digitChar m).isDigit = true ∧ Nat.digitChar m ≠ '_' ∧
        Nat.digitChar m ≠ '+' ∧ digitVal (Nat.digitChar m) = m) := by
  decide

theorem natToDigits_mem (n : Nat) :
    ∀ c ∈ natToDigits n, ∃ m, m < 10 ∧ c = Nat.digitChar m := by
  induction n using natToDigits.induct with
  | case1 n h =>
    intro c hc
    rw [natToDigits, dif_pos h] at hc
    exact ⟨n, h, (List.mem_singleton.mp hc)⟩
  | case2 n h ih =>
    intro c hc
    rw [natToDigits, dif_neg h] at hc
    rcases List.mem_append.mp hc with h1 | h2
    · exact ih c h1
    · exact ⟨n % 10, Nat.mod_lt _ (by omega), List.mem_singleton.mp h2⟩

theorem natToDigits_ne_nil (n : Nat) : natToDigits n ≠ [] := by
  rw [natToDigits]
  split <;> simp

theorem natToDigits_foldl (n : Nat) :
    ∀ acc, (natToDigits n).foldl (fun acc c => acc * 10 + digitVal c) acc
      = acc * 10 ^ (natToDigits n).length + n := by
  induction n using natToDigits.induct with
  | case1 n h =>
    intro acc
    rw [natToDigits, dif_pos h]
    simp [List.foldl, (digitChar_props n h).2.2.2]
  | case2 n h ih =>
    intro acc
    rw [natToDigits, dif_neg h]
    rw [List.foldl_append]
    simp only [List.foldl, (digitChar_props (n % 10) (Nat.mod_lt _ (by omega))).2.2.2]
    rw [ih acc]
    rw [List.length_append]
    simp [pow_succ]
    rw [Nat.add_mul, Nat.add_assoc, Nat.div_add_mod']
    ring

theorem parseDigits_natToDigits (n : Nat) : parseDigits (natToDigits n) = some n := by
  have hne := natToDigits_ne_nil n
  have hall : (natToDigits n).all Char.isDigit = true := by
    rw [List.all_eq_true]
    intro c hc
    obtain ⟨m, hm, rfl⟩ := natToDigits_mem n c hc
    exact (digitChar_props m hm).1
  cases hd : natToDigits n with
  | nil => exact absurd hd hne
  | cons a t =>
    rw [hd] at hall
    have := natToDigits_foldl n 0
    rw [hd] at this
    simp only [parseDigits, hall, if_pos]
    rw [this]
    simp

theorem stripPlus_natToDigits (n : Nat) : stripPlus (natToDigits n) = natToDigits n := by
  cases hd : natToDigits n with
  | nil => rfl
  | cons a t =>
    have ha : a ∈ natToDigits n := by rw [hd]; exact List.mem_cons_self a t
    obtain ⟨m, hm, rfl⟩ := natToDigits_mem n _ ha
    simp [stripPlus, (digitChar_props m hm).2.2.1]

theorem parseU32_natToDigits (n : Nat) (h : n < 2 ^ 32) :
    parseU32 (natToDigits n) = some n := by
  have h' : n < 4294967296 := by omega
  rw [parseU32, stripPlus_natToDigits, parseDigits_natToDigits]
  simp [h']

theorem underscore_not_mem_natToDigits (n : Nat) : '_' ∉ natToDigits n := by
  intro hm
  obtain ⟨m, hm10, he⟩ := natToDigits_mem n _ hm
  exact (digitChar_props m hm10).2.1 he.symm

/-- **C1.** Composite identifier round-trip: for every handler id `h`
(a `u32`, hence `h < 2 ^ 32`) and every local identifier `x` that does not end
in `_<digits>`, decoding the encoding of `(h, x)` yields exactly `(h, x)`. -/
theorem composite_id_roundtrip (h : Nat) (x : String)
    (hh : h < 2 ^ 32) (hx : endsWithUnderscoreDigits x = false) :
    CompositeId.split (CompositeId.compose h x) = .ok (h, x) := by
  have hdata : (CompositeId.compose h x).data = x.data ++ '_' :: natToDigits h := by
    simp [CompositeId.compose, String.data_append]
  rw [CompositeId.split, hdata,
    rsplitOnceChar_append '_' x.data (natToDigits h) (underscore_not_mem_natToDigits h)]
  simp only [parseU32_natToDigits h hh]

/-- Witness for C1, instantiating scenario S1 of the spec:
`compose(1, "foo_bar")` decodes back to `(1, "foo_bar")`. -/
theorem composite_id_roundtrip_witness :
    (1 : Nat) < 2 ^ 32 ∧ endsWithUnderscoreDigits "foo_bar" = false ∧
      CompositeId.split (CompositeId.compose 1 "foo_bar") = .ok (1, "foo_bar") :=
  ⟨by decide, by decide, composite_id_roundtrip 1 "foo_bar" (by decide) (by decide)⟩

/-! ## The rmcp model types used by the aggregate server

Only the fields the embedded code reads or writes are kept; `Option` fields the
code never touches are carried so that pass-through is visible. -/

/-- `rmcp::model::ResourceContents`: text or blob variant, each with a `uri`. -/
inductive ResourceContents where
  | textResource (uri : String) (mimeType : Option String) (text : String)
  | blobResource (uri : String) (mimeType : Option String) (blob : String)
deriving DecidableEq, Repr

/-- `rmcp::model::RawContent`. The `resource` variant is an embedded resource. -/
inductive RawContent where
  | text (text : String)
  | image (data : String) (mimeType : String)
  | audio (data : String) (mimeType : String)
  | resource (resource : ResourceContents)
deriving DecidableEq, Repr

/-- `rmcp::model::Content` is annotated raw content; the aggregate only ever
touches the `raw` field. -/
structure Content where
  raw : RawContent
deriving DecidableEq, Repr

structure Tool where
  name : String
  description : Option String
deriving DecidableEq, Repr

structure MResource where
  uri : String
  name : String
  description : Option String
deriving DecidableEq, Repr

structure MResourceTemplate where
  uriTemplate : String
  name : String
  description : Option String
deriving DecidableEq, Repr

structure MPrompt where
  name : String
  description : Option String
deriving DecidableEq, Repr

structure ToolsCapability where
  listChanged : Option Bool
deriving DecidableEq, Repr

structure PromptsCapability where
  listChanged : Option Bool
deriving DecidableEq, Repr

structure ResourcesCapability where
  subscribe : Option Bool
  listChanged : Option Bool
deriving DecidableEq, Repr

structure ServerCapabilities where
  tools : Option ToolsCapability
  prompts : Option PromptsCapability
  resources : Option ResourcesCapability
  logging : Option Unit
  completions : Option Unit
  experimental : Option Unit
deriving DecidableEq, Repr

/-- `ServerCapabilities::default()`: every capability absent. -/
def ServerCapabilities.default : ServerCapabilities :=
  { tools := none, prompts := none, resources := none,
    logging := none, completions := none, experimental := none }

structure Implementation where
  name : String
  version : String
deriving DecidableEq, Repr

structure ServerInfo where
  protocolVersion : String
  capabilities : ServerCapabilities
  serverInfo : Implementation
  instructions : Option String
deriving DecidableEq, Repr

structure CallToolRequestParam where
  name : String
  arguments : Option Json

structure ReadResourceRequestParam where
  uri : String

structure GetPromptRequestParam where
  name : String
  arguments : Option Json

/-- `rmcp::model::ClientRequest`, with the pagination parameter of the list
requests flattened to the only shapes the code produces: `none`
(`set_page_param(None)`) or `some cursor` (`Some(PaginatedRequestParam {
cursor: Some(p) })`). -/
inductive ClientRequest where
  | ping
  | initRequest
  | listTools (cursor : Option String)
  | callTool (params : CallToolRequestParam)
  | listResources (cursor : Option String)
  | listResourceTemplates (cursor : Option String)
  | readResource (params : ReadResourceRequestParam)
  | listPrompts (cursor : Option String)
  | getPrompt (params : GetPromptRequestParam)
  | subscribe (uri : String)
  | unsubscribe (uri : String)
  | setLevel
  | complete

/-- `rmcp::model::ServerResult`, restricted to the variants the aggregate
produces or matches on. -/
inductive ServerResult where
  | empty
  | initResult (info : ServerInfo)
  | listToolsResult (tools : List Tool) (nextCursor : Option String)
  | callToolResult (content : List Content) (isError : Option Bool)
  | listResourcesResult (resources : List MResource) (nextCursor : Option String)
  | listResourceTemplatesResult (resourceTemplates : List MResourceTemplate)
      (nextCursor : Option String)
  | readResourceResult (contents : List ResourceContents)
  | listPromptsResult (prompts : List MPrompt) (nextCursor : Option String)
  | getPromptResult (description : Option String)

/-- A boxed `Service<RoleServer>` (`DynServer`): its request handler and its
`get_info`. Requests are sequential awaits in the source, embedded as a pure
function from request to result. -/
structure DynServer where
  handleRequest : ClientRequest → Except McpError ServerResult
  getInfo : ServerInfo

/-- `ProxyServer::get_info`: a minimal placeholder with default (all-absent)
capabilities. -/
def proxyGetInfo : ServerInfo :=
  { protocolVersion := "2025-03-26",
    capabilities := ServerCapabilities.default,
    serverInfo := { name := "", version := "" },
    instructions := none }

/-- `EsBaseTools`'s `get_info` (base_tools.rs): only the tools capability is
enabled. -/
def esBaseToolsGetInfo : ServerInfo :=
  { protocolVersion := "2024-11-05",
    capabilities := { ServerCapabilities.default with tools := some { listChanged := none } },
    serverInfo := { name := "elastic-mcp", version := "0.0.1" },
    instructions := some "Provides access to Elasticsearch" }

/-! ## The aggregate server -/

/-- `AggregateServer`: handlers are keyed by `HandlerId(i)` where `i` is the
registration index (`enumerate` in `AggregateServer::new`), so the `HashMap` is
a list indexed by position; looking up id `h` is `handlers[h]?`. -/
structure AggregateServer where
  handlers : List DynServer

/-- `AggregateServer::split_id`: decode the composite id, then look up the
handler; an unknown handler id is `resource_not_found` with the full id. -/
def AggregateServer.splitId (srv : AggregateServer) (id : String) :
    Except McpError (DynServer × Nat × String) :=
  match CompositeId.split id with
  | .error e => .error e
  | .ok (handlerId, name) =>
    match srv.handlers[handlerId]? with
    | none => .error (.resourceNotFound id)
    | some handler => .ok (handler, handlerId, name)

/-- `AggregateServer::rename_resource`: replace the URI of either variant with
the composite form. -/
def renameResource (handlerId : Nat) : ResourceContents → ResourceContents
  | .textResource uri mt text => .textResource (CompositeId.compose handlerId uri) mt text
  | .blobResource uri mt blob => .blobResource (CompositeId.compose handlerId uri) mt blob

/-- The content rewrite in the `CallToolRequest` arm: embedded resources get
their URI renamed, all other content kinds pass through. -/
def rewriteContent (handlerId : Nat) (c : Content) : Content :=
  match c.raw with
  | .resource r => { raw := .resource (renameResource handlerId r) }
  | _ => c

/-- The sequential broadcast of the `PingRequest` and `InitializeRequest` arms:
forward to every handler in turn, `?`-propagating the first error, then return
`result`. -/
def broadcast (handlers : List DynServer) (request : ClientRequest)
    (result : ServerResult) : Except McpError ServerResult :=
  match handlers with
  | [] => .ok result
  | h :: rest =>
    match h.handleRequest request with
    | .error e => .error e
    | .ok _ => broadcast rest request result

/-- The inner `loop` of `AggregateServer::list_all`: fetch a page at `cursor`,
rename its items, and continue while a `next_cursor` is returned. The source
loops unconditionally; the embedding takes fuel, and exhausting it is an
embedding artifact that never occurs for terminating paginations. -/
def drainPages (pageFun : Option String → Except McpError (List α × Option String))
    (update : α → α) : Nat → Option String → Except McpError (List α)
  | 0, _ => .error (.internalError "pagination fuel exhausted")
  | fuel + 1, cursor =>
    match pageFun cursor with
    | .error e => .error e
    | .ok (items, next) =>
      match next with
      | none => .ok (items.map update)
      | some c =>
        match drainPages pageFun update fuel (some c) with
        | .error e => .error e
        | .ok rest => .ok (items.map update ++ rest)

/-- The outer loop of `AggregateServer::list_all`: drain every handler,
renaming items with that handler's id, and concatenate. -/
def listAllFrom (fuel : Nat)
    (pageFun : DynServer → Option String → Except McpError (List α × Option String))
    (update : Nat → α → α) : Nat → List DynServer → Except McpError (List α)
  | _, [] => .ok []
  | id, handler :: rest =>
    match drainPages (pageFun handler) (update id) fuel none with
    | .error e => .error e
    | .ok items =>
      match listAllFrom fuel pageFun update (id + 1) rest with
      | .error e => .error e
      | .ok more => .ok (items ++ more)

def listAll (fuel : Nat) (handlers : List DynServer)
    (pageFun : DynServer → Option String → Except McpError (List α × Option String))
    (update : Nat → α → α) : Except McpError (List α) :=
  listAllFrom fuel pageFun update 0 handlers

/-- The per-handler page fetch of the `ListToolsRequest` arm, including the
unexpected-variant sanity check. -/
def toolsPageFun (handler : DynServer) (cursor : Option String) :
    Except McpError (List Tool × Option String) :=
  match handler.handleRequest (.listTools cursor) with
  | .ok (.listToolsResult tools next) => .ok (tools, next)
  | .ok _ => .error (.internalError "Expecting ListToolsResult")
  | .error e => .error e

def resourcesPageFun (handler : DynServer) (cursor : Option String) :
    Except McpError (List MResource × Option String) :=
  match handler.handleRequest (.listResources cursor) with
  | .ok (.listResourcesResult resources next) => .ok (resources, next)
  | .ok _ => .error (.internalError "Expecting ListResourcesResult")
  | .error e => .error e

def resourceTemplatesPageFun (handler : DynServer) (cursor : Option String) :
    Except McpError (List MResourceTemplate × Option String) :=
  match handler.handleRequest (.listResourceTemplates cursor) with
  | .ok (.listResourceTemplatesResult templates next) => .ok (templates, next)
  | .ok _ => .error (.internalError "Expecting ListResourceTemplatesResult")
  | .error e => .error e

def promptsPageFun (handler : DynServer) (cursor : Option String) :
    Except McpError (List MPrompt × Option String) :=
  match handler.handleRequest (.listPrompts cursor) with
  | .ok (.listPromptsResult prompts next) => .ok (prompts, next)
  | .ok _ => .error (.internalError "Expecting ListPromptsResult")
  | .error e => .error e

/-- The item renamings of the four list arms. -/
def renameTool (id : Nat) (t : Tool) : Tool :=
  { t with name := CompositeId.compose id t.name }

def renameMResource (id : Nat) (r : MResource) : MResource :=
  { r with uri := CompositeId.compose id r.uri, name := CompositeId.compose id r.name }

def renameMResourceTemplate (id : Nat) (r : MResourceTemplate) : MResourceTemplate :=
  { r with uriTemplate := CompositeId.compose id r.uriTemplate,
           name := CompositeId.compose id r.name }

def renameMPrompt (id : Nat) (p : MPrompt) : MPrompt :=
  { p with name := CompositeId.compose id p.name }

/-- The capability-merge loop of `AggregateServer::get_info`. -/
def mergeCaps (handlers : List DynServer) (acc : ServerCapabilities) : ServerCapabilities :=
  match handlers with
  | [] => acc
  | handler :: rest =>
    let info := handler.getInfo
    let acc := if info.capabilities.tools.isSome
      then { acc with tools := some { listChanged := none } } else acc
    let acc := if info.capabilities.prompts.isSome
      then { acc with prompts := some { listChanged := none } } else acc
    let acc := if info.capabilities.resources.isSome
      then { acc with resources := some { subscribe := none, listChanged := none } } else acc
    mergeCaps rest acc

/-- `AggregateServer::get_info`. -/
def AggregateServer.getInfo (srv : AggregateServer) : ServerInfo :=
  { protocolVersion := "2025-03-26",
    capabilities := mergeCaps srv.handlers ServerCapabilities.default,
    serverInfo := { name := "Elastic-MCP", version := "0.0.1" },
    instructions := none }

/-- `AggregateServer::handle_request`. `fuel` bounds the pagination loops of
the list arms only. -/
def AggregateServer.handleRequest (fuel : Nat) (srv : AggregateServer) :
    ClientRequest → Except McpError ServerResult
  | .ping => broadcast srv.handlers .ping .empty
  | .initRequest => broadcast srv.handlers .initRequest (.initResult srv.getInfo)
  | .listTools _ =>
    match listAll fuel srv.handlers toolsPageFun renameTool with
    | .error e => .error e
    | .ok tools => .ok (.listToolsResult tools none)
  | .callTool params =>
    match srv.splitId params.name with
    | .error e => .error e
    | .ok (handler, id, name) =>
      match handler.handleRequest (.callTool { params with name := name }) with
      | .error e => .error e
      | .ok (.callToolResult content isError) =>
        .ok (.callToolResult (content.map (rewriteContent id)) isError)
      | .ok _ => .error (.internalError "Expecting CallToolResult")
  | .listResources _ =>
    match listAll fuel srv.handlers resourcesPageFun renameMResource with
    | .error e => .error e
    | .ok resources => .ok (.listResourcesResult resources none)
  | .listResourceTemplates _ =>
    match listAll fuel srv.handlers resourceTemplatesPageFun renameMResourceTemplate with
    | .error e => .error e
    | .ok templates => .ok (.listResourceTemplatesResult templates none)
  | .readResource params =>
    match srv.splitId params.uri with
    | .error e => .error e
    | .ok (handler, id, uri) =>
      match handler.handleRequest (.readResource { uri := uri }) with
      | .error e => .error e
      | .ok (.readResourceResult contents) =>
        .ok (.readResourceResult (contents.map (renameResource id)))
      | .ok _ => .error (.internalError "Expecting ListResourceTemplatesResult")
  | .listPrompts _ =>
    match listAll fuel srv.handlers promptsPageFun renameMPrompt with
    | .error e => .error e
    | .ok prompts => .ok (.listPromptsResult prompts none)
  | .getPrompt params =>
    match srv.splitId params.name with
    | .error e => .error e
    | .ok (handler, _, name) =>
      handler.handleRequest (.getPrompt { params with name := name })
  | .subscribe _ => .error (.methodNotFound .subscribe)
  | .unsubscribe _ => .error (.methodNotFound .unsubscribe)
  | .setLevel => .error (.methodNotFound .setLevel)
  | .complete => .error (.methodNotFound .complete)

/-! ## C2: decode failure and unknown-handler failure -/

/-- A trivial upstream used in concrete scenarios. -/
def okServer : DynServer :=
  { handleRequest := fun _ => .ok .empty, getInfo := proxyGetInfo }

/-- An upstream whose every request fails. -/
def errServer : DynServer :=
  { handleRequest := fun _ => .error (.internalError "boom"), getInfo := proxyGetInfo }

/-- **C2.** Decode failure and unknown-handler failure both yield
"resource not found" carrying the full input: if the input has no underscore
or the suffix after the last underscore does not parse as `u32`, `split` fails
with the input as payload; and if the input decodes to a handler id absent
from the handler map, call-tool routing fails with the full composite id as
payload. -/
theorem split_failure_not_found :
    (∀ s : String,
      ('_' ∉ s.data ∨
        ∃ l r, rsplitOnceChar '_' s.data = some (l, r) ∧ parseU32 r = none) →
      CompositeId.split s = .error (.resourceNotFound s))
    ∧ (∀ (fuel : Nat) (srv : AggregateServer) (s : String) (hid : Nat)
        (name : String) (args : Option Json),
        CompositeId.split s = .ok (hid, name) →
        srv.handlers[hid]? = none →
        AggregateServer.handleRequest fuel srv (.callTool ⟨s, args⟩)
          = .error (.resourceNotFound s)) := by
  constructor
  · intro s hfail
    rcases hfail with hnou | ⟨l, r, hsplit, hparse⟩
    · rw [CompositeId.split, rsplitOnceChar_eq_none '_' s.data hnou]
    · rw [CompositeId.split, hsplit]
      simp only [hparse]
  · intro fuel srv s hid name args hsplit hget
    simp only [AggregateServer.handleRequest, AggregateServer.splitId, hsplit, hget]

/-- Witness for C2: `"foo_bar"` fails to decode with payload `"foo_bar"`,
and with only handler 0 registered, `call_tool("foo_7", {})` fails with
payload `"foo_7"` (scenario S2). -/
theorem split_failure_not_found_witness :
    CompositeId.split "foo_bar" = .error (.resourceNotFound "foo_bar")
    ∧ AggregateServer.handleRequest 1 ⟨[okServer]⟩ (.callTool ⟨"foo_7", none⟩)
        = .error (.resourceNotFound "foo_7") :=
  ⟨split_failure_not_found.1 "foo_bar"
      (Or.inr ⟨['f', 'o', 'o'], ['b', 'a', 'r'], by decide, by decide⟩),
    split_failure_not_found.2 1 ⟨[okServer]⟩ "foo_7" 7 "foo" none rfl rfl⟩

/-! ## C5: capability union -/

theorem mergeCaps_fields (l : List DynServer) (acc : ServerCapabilities) :
    (mergeCaps l acc).tools
      = (if l.any (fun h => h.getInfo.capabilities.tools.isSome)
          then some { listChanged := none } else acc.tools)
    ∧ (mergeCaps l acc).prompts
      = (if l.any (fun h => h.getInfo.capabilities.prompts.isSome)
          then some { listChanged := none } else acc.prompts)
    ∧ (mergeCaps l acc).resources
      = (if l.any (fun h => h.getInfo.capabilities.resources.isSome)
          then some { subscribe := none, listChanged := none } else acc.resources)
    ∧ (mergeCaps l acc).logging = acc.logging
    ∧ (mergeCaps l acc).completions = acc.completions
    ∧ (mergeCaps l acc).experimental = acc.experimental := by
  induction l generalizing acc with
  | nil => simp [mergeCaps]
  | cons handler rest ih =>
    by_cases h1 : handler.getInfo.capabilities.tools.isSome <;>
      by_cases h2 : handler.getInfo.capabilities.prompts.isSome <;>
        by_cases h3 : handler.getInfo.capabilities.resources.isSome <;>
          by_cases h4 : rest.any (fun h => h.getInfo.capabilities.tools.isSome) <;>
            by_cases h5 : rest.any (fun h => h.getInfo.capabilities.prompts.isSome) <;>
              by_cases h6 : rest.any (fun h => h.getInfo.capabilities.resources.isSome) <;>
                simp [mergeCaps, h1, h2, h3, h4, h5, h6, ih]

/-- **C5.** Capability union: the aggregate's `get_info` advertises the tools
capability iff at least one registered upstream's `get_info` advertises tools,
likewise for prompts and resources; logging, completions and experimental are
always absent. -/
theorem capability_union (srv : AggregateServer) :
    ((srv.getInfo.capabilities.tools.isSome = true)
      ↔ ∃ h ∈ srv.handlers, h.getInfo.capabilities.tools.isSome = true)
    ∧ ((srv.getInfo.capabilities.prompts.isSome = true)
      ↔ ∃ h ∈ srv.handlers, h.getInfo.capabilities.prompts.isSome = true)
    ∧ ((srv.getInfo.capabilities.resources.isSome = true)
      ↔ ∃ h ∈ srv.handlers, h.getInfo.capabilities.resources.isSome = true)
    ∧ srv.getInfo.capabilities.logging = none
    ∧ srv.getInfo.capabilities.completions = none
    ∧ srv.getInfo.capabilities.experimental = none := by
  obtain ⟨ht, hp, hr, hl, hc, he⟩ :=
    mergeCaps_fields srv.handlers ServerCapabilities.default
  have hgi : srv.getInfo.capabilities = mergeCaps srv.handlers ServerCapabilities.default :=
    rfl
  rw [hgi, ht, hp, hr]
  refine ⟨?_, ?_, ?_, hl.trans rfl, hc.trans rfl, he.trans rfl⟩ <;>
    · rw [← List.any_eq_true]
      split <;> simp_all [ServerCapabilities.default]

/-- Witness for C5: one Elasticsearch upstream (tools enabled) and one proxy
upstream (empty capabilities): tools are advertised because the first upstream
advertises them; prompts are not. -/
theorem capability_union_witness :
    ((AggregateServer.getInfo
        ⟨[{ handleRequest := fun _ => .ok .empty, getInfo := esBaseToolsGetInfo },
          { handleRequest := fun _ => .ok .empty, getInfo := proxyGetInfo }]⟩).capabilities.tools.isSome = true
      ↔ ∃ h ∈ [({ handleRequest := fun _ => .ok .empty, getInfo := esBaseToolsGetInfo } : DynServer),
          { handleRequest := fun _ => .ok .empty, getInfo := proxyGetInfo }],
          h.getInfo.capabilities.tools.isSome = true) :=
  (capability_union
    ⟨[{ handleRequest := fun _ => .ok .empty, getInfo := esBaseToolsGetInfo },
      { handleRequest := fun _ => .ok .empty, getInfo := proxyGetInfo }]⟩).1

/-! ## C6: ping fail-fast broadcast -/

theorem broadcast_ok_iff (handlers : List DynServer) (req : ClientRequest)
    (res : ServerResult) :
    broadcast handlers req res = .ok res
      ↔ ∀ h ∈ handlers, ∃ r, h.handleRequest req = .ok r := by
  induction handlers with
  | nil => simp [broadcast]
  | cons handler rest ih =>
    cases heq : handler.handleRequest req with
    | error e =>
      simp only [broadcast, heq]
      constructor
      · intro h
        exact absurd h (by simp)
      · intro h
        obtain ⟨r, hr⟩ := h handler (List.mem_cons_self handler rest)
        rw [heq] at hr
        exact absurd hr (by simp)
    | ok r =>
      simp only [broadcast, heq, ih]
      constructor
      · intro h g hg
        rcases List.mem_cons.mp hg with rfl | hmem
        · exact ⟨r, heq⟩
        · exact h g hmem
      · intro h g hg
        exact h g (List.mem_cons_of_mem handler hg)

theorem broadcast_first_error (req : ClientRequest) (res : ServerResult)
    (pre post : List DynServer) (handler : DynServer) (e : McpError)
    (hpre : ∀ g ∈ pre, ∃ r, g.handleRequest req = .ok r)
    (herr : handler.handleRequest req = .error e) :
    broadcast (pre ++ handler :: post) req res = .error e := by
  induction pre with
  | nil => simp [broadcast, herr]
  | cons g rest ih =>
    obtain ⟨r, hr⟩ := hpre g (List.mem_cons_self g rest)
    rw [List.cons_append, broadcast, hr]
    exact ih fun g' hg' => hpre g' (List.mem_cons_of_mem g hg')

/-- **C6.** Ping fail-fast broadcast: the aggregate returns empty success iff
every registered upstream's ping succeeds; and when all upstreams before some
failing upstream succeed, that upstream's error is propagated unchanged and is
never masked by a success. -/
theorem ping_failfast (fuel : Nat) (srv : AggregateServer) :
    (AggregateServer.handleRequest fuel srv .ping = .ok .empty
      ↔ ∀ h ∈ srv.handlers, ∃ r, h.handleRequest .ping = .ok r)
    ∧ (∀ (pre post : List DynServer) (handler : DynServer) (e : McpError),
        srv.handlers = pre ++ handler :: post →
        (∀ g ∈ pre, ∃ r, g.handleRequest .ping = .ok r) →
        handler.handleRequest .ping = .error e →
        AggregateServer.handleRequest fuel srv .ping = .error e) := by
  constructor
  · exact broadcast_ok_iff srv.handlers .ping .empty
  · intro pre post handler e hsplit hpre herr
    show broadcast srv.handlers .ping .empty = .error e
    rw [hsplit]
    exact broadcast_first_error .ping .empty pre post handler e hpre herr

/-- Witness for C6, scenario S6: two upstreams, the second fails; the
federation ping returns that error and does not mask it with success. -/
theorem ping_failfast_witness :
    AggregateServer.handleRequest 1 ⟨[okServer, errServer]⟩ .ping
      = .error (.internalError "boom") :=
  (ping_failfast 1 ⟨[okServer, errServer]⟩).2 [okServer] [] errServer
    (.internalError "boom") rfl
    (fun g hg => by
      rw [List.mem_singleton.mp hg]
      exact ⟨.empty, rfl⟩)
    rfl

/-! ## C7: unsupported methods -/

/-- **C7.** Unsupported methods: subscribe, unsubscribe, set-level and
complete requests fail with a "method not found" error of the corresponding
method kind, and the result does not depend on the registered upstreams (no
upstream handler is invoked). -/
theorem unsupported_methods (fuel : Nat) (srv srv₂ : AggregateServer) (uri : String) :
    AggregateServer.handleRequest fuel srv (.subscribe uri)
      = .error (.methodNotFound .subscribe)
    ∧ AggregateServer.handleRequest fuel srv (.unsubscribe uri)
      = .error (.methodNotFound .unsubscribe)
    ∧ AggregateServer.handleRequest fuel srv .setLevel
      = .error (.methodNotFound .setLevel)
    ∧ AggregateServer.handleRequest fuel srv .complete
      = .error (.methodNotFound .complete)
    ∧ AggregateServer.handleRequest fuel srv (.subscribe uri)
      = AggregateServer.handleRequest fuel srv₂ (.subscribe uri)
    ∧ AggregateServer.handleRequest fuel srv (.unsubscribe uri)
      = AggregateServer.handleRequest fuel srv₂ (.unsubscribe uri)
    ∧ AggregateServer.handleRequest fuel srv .setLevel
      = AggregateServer.handleRequest fuel srv₂ .setLevel
    ∧ AggregateServer.handleRequest fuel srv .complete
      = AggregateServer.handleRequest fuel srv₂ .complete :=
  ⟨rfl, rfl, rfl, rfl, rfl, rfl, rfl, rfl⟩

/-- Witness for C7 at a concrete aggregate. -/
theorem unsupported_methods_witness :
    AggregateServer.handleRequest 1 ⟨[okServer]⟩ (.subscribe "r_0")
      = .error (.methodNotFound .subscribe)
    ∧ AggregateServer.handleRequest 1 ⟨[okServer]⟩ .complete
      = .error (.methodNotFound .complete) :=
  ⟨(unsupported_methods 1 ⟨[okServer]⟩ ⟨[]⟩ "r_0").1,
    (unsupported_methods 1 ⟨[okServer]⟩ ⟨[]⟩ "r_0").2.2.2.1⟩

/-! ## C3: call-tool routing and embedded-resource rewrite -/

/-- Evaluation of the well-founded `natToDigits` at the small handler ids used
in concrete scenarios. -/
theorem natToDigits_zero : natToDigits 0 = ['0'] := by
  rw [natToDigits]
  decide

theorem natToDigits_one : natToDigits 1 = ['1'] := by
  rw [natToDigits]
  decide

/-- An upstream exposing one tool `"echo"` that answers with a text content
and an embedded text resource. -/
def echoServer : DynServer :=
  { handleRequest := fun req =>
      match req with
      | .callTool p =>
        if p.name = "echo" then
          .ok (.callToolResult
            [⟨.text "hello"⟩, ⟨.resource (.textResource "doc" none "body")⟩] none)
        else .error (.resourceNotFound p.name)
      | _ => .ok .empty,
    getInfo := proxyGetInfo }

/-- **C3.** Call-tool routing and embedded-resource rewrite: a call-tool
request whose composite name decodes to `(hid, localName)` is forwarded with
the local name to the handler registered under `hid`; in the returned result
every embedded resource (text or blob variant) has its URI `u` replaced by
`compose hid u` while text and other content kinds pass through unchanged; and
the outcome depends only on the handler registered under `hid` (no other
upstream is involved). -/
theorem call_tool_routing (fuel : Nat) (srv srv₂ : AggregateServer)
    (s localName : String) (hid : Nat) (args : Option Json) (handler : DynServer)
    (content : List Content) (isError : Option Bool)
    (hsplit : CompositeId.split s = .ok (hid, localName))
    (hget : srv.handlers[hid]? = some handler)
    (hresp : handler.handleRequest (.callTool ⟨localName, args⟩)
      = .ok (.callToolResult content isError)) :
    AggregateServer.handleRequest fuel srv (.callTool ⟨s, args⟩)
      = .ok (.callToolResult (content.map (rewriteContent hid)) isError)
    ∧ (∀ c ∈ content,
        (∀ uri mt text, c.raw = .resource (.textResource uri mt text) →
          rewriteContent hid c
            = ⟨.resource (.textResource (CompositeId.compose hid uri) mt text)⟩)
        ∧ (∀ uri mt blob, c.raw = .resource (.blobResource uri mt blob) →
          rewriteContent hid c
            = ⟨.resource (.blobResource (CompositeId.compose hid uri) mt blob)⟩)
        ∧ (∀ text, c.raw = .text text → rewriteContent hid c = c)
        ∧ (∀ data mt, c.raw = .image data mt → rewriteContent hid c = c)
        ∧ (∀ data mt, c.raw = .audio data mt → rewriteContent hid c = c))
    ∧ (srv₂.handlers[hid]? = some handler →
        AggregateServer.handleRequest fuel srv₂ (.callTool ⟨s, args⟩)
          = AggregateServer.handleRequest fuel srv (.callTool ⟨s, args⟩)) := by
  refine ⟨?_, ?_, ?_⟩
  · simp only [AggregateServer.handleRequest, AggregateServer.splitId, hsplit, hget, hresp]
  · intro c _
    exact ⟨fun uri mt text hc => by simp [rewriteContent, renameResource, hc],
      fun uri mt blob hc => by simp [rewriteContent, renameResource, hc],
      fun text hc => by simp [rewriteContent, hc],
      fun data mt hc => by simp [rewriteContent, hc],
      fun data mt hc => by simp [rewriteContent, hc]⟩
  · intro hget₂
    simp only [AggregateServer.handleRequest, AggregateServer.splitId, hsplit, hget, hget₂]

/-- Witness for C3: with `echoServer` registered as handler 1,
`call_tool("echo_1")` reaches it under the local name `"echo"`; the embedded
resource URI `"doc"` comes back as `"doc_1"`, the text content unchanged. -/
theorem call_tool_routing_witness :
    AggregateServer.handleRequest 1 ⟨[okServer, echoServer]⟩ (.callTool ⟨"echo_1", none⟩)
      = .ok (.callToolResult
          [⟨.text "hello"⟩, ⟨.resource (.textResource "doc_1" none "body")⟩] none) := by
  have h := (call_tool_routing 1 ⟨[okServer, echoServer]⟩ ⟨[]⟩ "echo_1" "echo" 1 none
    echoServer [⟨.text "hello"⟩, ⟨.resource (.textResource "doc" none "body")⟩] none
    rfl rfl rfl).1
  rw [h]
  simp only [List.map_cons, List.map_nil, rewriteContent, renameResource,
    CompositeId.compose, natToDigits_one]
  rfl

/-! ## C4: list drain and concatenation -/

/-- A terminating cursor chain of an upstream's list endpoint: starting from
`cursor`, the pages returned are exactly `pss`, the last one with no
`next_cursor`. -/
inductive Pages {α : Type} (pageFun : Option String → Except McpError (List α × Option String)) :
    Option String → List (List α) → Prop where
  | last (cursor : Option String) (items : List α) :
      pageFun cursor = .ok (items, none) → Pages pageFun cursor [items]
  | more (cursor : Option String) (items : List α) (next : String) (rest : List (List α)) :
      pageFun cursor = .ok (items, some next) → Pages pageFun (some next) rest →
      Pages pageFun cursor (items :: rest)

theorem drainPages_eq {α : Type}
    (pageFun : Option String → Except McpError (List α × Option String))
    (update : α → α) (cursor : Option String) (pss : List (List α))
    (hp : Pages pageFun cursor pss) :
    ∀ fuel, pss.length ≤ fuel →
      drainPages pageFun update fuel cursor = .ok (pss.flatten.map update) := by
  induction hp with
  | last cursor items hpage =>
    intro fuel hfuel
    match fuel with
    | 0 => exact absurd hfuel (by simp)
    | fuel + 1 =>
      simp [drainPages, hpage]
  | more cursor items next rest hpage _ ih =>
    intro fuel hfuel
    match fuel with
    | 0 => exact absurd hfuel (by simp)
    | fuel + 1 =>
      have hrest : rest.length ≤ fuel := by
        simp only [List.length_cons] at hfuel
        omega
      simp [drainPages, hpage, ih fuel hrest]

/-- The concatenation, over handler ids `start, start+1, …, start+n-1`, of
each handler's drained pages after renaming: the expected value of
`list_all`. -/
def expectedItems {α : Type} (update : Nat → α → α) (pss : Nat → List (List α))
    (start : Nat) : Nat → List α
  | 0 => []
  | n + 1 => ((pss start).flatten.map (update start)) ++ expectedItems update pss (start + 1) n

theorem listAllFrom_eq {α : Type} (fuel : Nat)
    (pageFun : DynServer → Option String → Except McpError (List α × Option String))
    (update : Nat → α → α) (pss : Nat → List (List α)) :
    ∀ (handlers : List DynServer) (start : Nat),
      (∀ i h, handlers[i]? = some h →
        Pages (pageFun h) none (pss (start + i)) ∧ (pss (start + i)).length ≤ fuel) →
      listAllFrom fuel pageFun update start handlers
        = .ok (expectedItems update pss start handlers.length) := by
  intro handlers
  induction handlers with
  | nil =>
    intro start _
    simp [listAllFrom, expectedItems]
  | cons handler rest ih =>
    intro start hpages
    obtain ⟨hp0, hf0⟩ := hpages 0 handler (by simp)
    rw [Nat.add_zero] at hp0 hf0
    have hdrain := drainPages_eq (pageFun handler) (update start) none (pss start) hp0 fuel hf0
    have hrest := ih (start + 1) (fun i h hi => by
      have := hpages (i + 1) h (by simpa using hi)
      rwa [show start + (i + 1) = start + 1 + i by omega] at this)
    simp only [listAllFrom, hdrain, hrest, List.length_cons, expectedItems]

/-- **C4.** List drain and concatenation: for each of the four list operations
(tools, resources, resource templates, prompts), when every registered handler
answers with a terminating cursor chain of pages (within the drain fuel), the
federated result is the concatenation, over all handlers and all cursor pages
of each handler, of the items renamed with that handler's id, and the
federated response's `next_cursor` is absent. -/
theorem list_drain_concatenation (fuel : Nat) (srv : AggregateServer)
    (cT cR cRT cP : Option String)
    (pssT : Nat → List (List Tool)) (pssR : Nat → List (List MResource))
    (pssRT : Nat → List (List MResourceTemplate)) (pssP : Nat → List (List MPrompt))
    (hT : ∀ i h, srv.handlers[i]? = some h →
      Pages (toolsPageFun h) none (pssT i) ∧ (pssT i).length ≤ fuel)
    (hR : ∀ i h, srv.handlers[i]? = some h →
      Pages (resourcesPageFun h) none (pssR i) ∧ (pssR i).length ≤ fuel)
    (hRT : ∀ i h, srv.handlers[i]? = some h →
      Pages (resourceTemplatesPageFun h) none (pssRT i) ∧ (pssRT i).length ≤ fuel)
    (hP : ∀ i h, srv.handlers[i]? = some h →
      Pages (promptsPageFun h) none (pssP i) ∧ (pssP i).length ≤ fuel) :
    AggregateServer.handleRequest fuel srv (.listTools cT)
      = .ok (.listToolsResult (expectedItems renameTool pssT 0 srv.handlers.length) none)
    ∧ AggregateServer.handleRequest fuel srv (.listResources cR)
      = .ok (.listResourcesResult (expectedItems renameMResource pssR 0 srv.handlers.length) none)
    ∧ AggregateServer.handleRequest fuel srv (.listResourceTemplates cRT)
      = .ok (.listResourceTemplatesResult
          (expectedItems renameMResourceTemplate pssRT 0 srv.handlers.length) none)
    ∧ AggregateServer.handleRequest fuel srv (.listPrompts cP)
      = .ok (.listPromptsResult (expectedItems renameMPrompt pssP 0 srv.handlers.length) none) := by
  refine ⟨?_, ?_, ?_, ?_⟩
  · have h := listAllFrom_eq fuel toolsPageFun renameTool pssT srv.handlers 0
      (fun i hh hi => by simpa using hT i hh hi)
    simp only [AggregateServer.handleRequest, listAll, h]
  · have h := listAllFrom_eq fuel resourcesPageFun renameMResource pssR srv.handlers 0
      (fun i hh hi => by simpa using hR i hh hi)
    simp only [AggregateServer.handleRequest, listAll, h]
  · have h := listAllFrom_eq fuel resourceTemplatesPageFun renameMResourceTemplate pssRT
      srv.handlers 0 (fun i hh hi => by simpa using hRT i hh hi)
    simp only [AggregateServer.handleRequest, listAll, h]
  · have h := listAllFrom_eq fuel promptsPageFun renameMPrompt pssP srv.handlers 0
      (fun i hh hi => by simpa using hP i hh hi)
    simp only [AggregateServer.handleRequest, listAll, h]

/-- Concrete catalog items for the list-merge scenario. -/
def toolA : Tool := { name := "a", description := none }

def toolB : Tool := { name := "b", description := none }

def toolC : Tool := { name := "c", description := none }

def res0 : MResource := { uri := "u", name := "r", description := none }

def tpl0 : MResourceTemplate := { uriTemplate := "t", name := "tn", description := none }

def prm0 : MPrompt := { name := "p", description := none }

/-- Handler 0 of the list-merge scenario: one tool `a`, one resource, one
template, one prompt, each in a single page. -/
def listServer0 : DynServer :=
  { handleRequest := fun req =>
      match req with
      | .listTools _ => .ok (.listToolsResult [toolA] none)
      | .listResources _ => .ok (.listResourcesResult [res0] none)
      | .listResourceTemplates _ => .ok (.listResourceTemplatesResult [tpl0] none)
      | .listPrompts _ => .ok (.listPromptsResult [prm0] none)
      | _ => .ok .empty,
    getInfo := proxyGetInfo }

/-- Handler 1 of the list-merge scenario: tools `b` and `c` split over two
cursor pages; empty single pages elsewhere. -/
def listServer1 : DynServer :=
  { handleRequest := fun req =>
      match req with
      | .listTools none => .ok (.listToolsResult [toolB] (some "p1"))
      | .listTools (some _) => .ok (.listToolsResult [toolC] none)
      | .listResources _ => .ok (.listResourcesResult [] none)
      | .listResourceTemplates _ => .ok (.listResourceTemplatesResult [] none)
      | .listPrompts _ => .ok (.listPromptsResult [] none)
      | _ => .ok .empty,
    getInfo := proxyGetInfo }

def pssTW : Nat → List (List Tool) := fun i =>
  match i with
  | 0 => [[toolA]]
  | _ => [[toolB], [toolC]]

def pssRW : Nat → List (List MResource) := fun i =>
  match i with
  | 0 => [[res0]]
  | _ => [[]]

def pssRTW : Nat → List (List MResourceTemplate) := fun i =>
  match i with
  | 0 => [[tpl0]]
  | _ => [[]]

def pssPW : Nat → List (List MPrompt) := fun i =>
  match i with
  | 0 => [[prm0]]
  | _ => [[]]

/-- Witness for C4, scenario S3 plus pagination: handler 0 exposes tool `a`,
handler 1 exposes tools `b` and `c` across two cursor pages; the federation
returns `a_0, b_1, c_1` in one page with no cursor, and the other three list
families concatenate and rename the same way. -/
theorem list_drain_concatenation_witness :
    AggregateServer.handleRequest 2 ⟨[listServer0, listServer1]⟩ (.listTools none)
      = .ok (.listToolsResult
          [{ name := "a_0", description := none },
            { name := "b_1", description := none },
            { name := "c_1", description := none }] none)
    ∧ AggregateServer.handleRequest 2 ⟨[listServer0, listServer1]⟩ (.listResources none)
      = .ok (.listResourcesResult
          [{ uri := "u_0", name := "r_0", description := none }] none)
    ∧ AggregateServer.handleRequest 2 ⟨[listServer0, listServer1]⟩
        (.listResourceTemplates none)
      = .ok (.listResourceTemplatesResult
          [{ uriTemplate := "t_0", name := "tn_0", description := none }] none)
    ∧ AggregateServer.handleRequest 2 ⟨[listServer0, listServer1]⟩ (.listPrompts none)
      = .ok (.listPromptsResult [{ name := "p_0", description := none }] none) := by
  have hT : ∀ i h, ([listServer0, listServer1][i]? = some h) →
      Pages (toolsPageFun h) none (pssTW i) ∧ (pssTW i).length ≤ 2 := by
    intro i h hi
    match i with
    | 0 =>
      rw [show h = listServer0 from (Option.some.inj hi).symm]
      exact ⟨Pages.last none [toolA] rfl, by simp [pssTW]⟩
    | 1 =>
      rw [show h = listServer1 from (Option.some.inj hi).symm]
      exact ⟨Pages.more none [toolB] "p1" [[toolC]] rfl
        (Pages.last (some "p1") [toolC] rfl), by simp [pssTW]⟩
    | (n + 2) => simp at hi
  have hR : ∀ i h, ([listServer0, listServer1][i]? = some h) →
      Pages (resourcesPageFun h) none (pssRW i) ∧ (pssRW i).length ≤ 2 := by
    intro i h hi
    match i with
    | 0 =>
      rw [show h = listServer0 from (Option.some.inj hi).symm]
      exact ⟨Pages.last none [res0] rfl, by simp [pssRW]⟩
    | 1 =>
      rw [show h = listServer1 from (Option.some.inj hi).symm]
      exact ⟨Pages.last none [] rfl, by simp [pssRW]⟩
    | (n + 2) => simp at hi
  have hRT : ∀ i h, ([listServer0, listServer1][i]? = some h) →
      Pages (resourceTemplatesPageFun h) none (pssRTW i) ∧ (pssRTW i).length ≤ 2 := by
    intro i h hi
    match i with
    | 0 =>
      rw [show h = listServer0 from (Option.some.inj hi).symm]
      exact ⟨Pages.last none [tpl0] rfl, by simp [pssRTW]⟩
    | 1 =>
      rw [show h = listServer1 from (Option.some.inj hi).symm]
      exact ⟨Pages.last none [] rfl, by simp [pssRTW]⟩
    | (n + 2) => simp at hi
  have hP : ∀ i h, ([listServer0, listServer1][i]? = some h) →
      Pages (promptsPageFun h) none (pssPW i) ∧ (pssPW i).length ≤ 2 := by
    intro i h hi
    match i with
    | 0 =>
      rw [show h = listServer0 from (Option.some.inj hi).symm]
      exact ⟨Pages.last none [prm0] rfl, by simp [pssPW]⟩
    | 1 =>
      rw [show h = listServer1 from (Option.some.inj hi).symm]
      exact ⟨Pages.last none [] rfl, by simp [pssPW]⟩
    | (n + 2) => simp at hi
  obtain ⟨h1, h2, h3, h4⟩ := list_drain_concatenation 2 ⟨[listServer0, listServer1]⟩
    none none none none pssTW pssRW pssRTW pssPW hT hR hRT hP
  refine ⟨?_, ?_, ?_, ?_⟩
  · rw [h1]
    simp only [expectedItems, pssTW, renameTool, CompositeId.compose, Nat.zero_add,
      toolA, toolB, toolC, natToDigits_zero, natToDigits_one, List.flatten, List.map]
    rfl
  · rw [h2]
    simp only [expectedItems, pssRW, renameMResource, CompositeId.compose, Nat.zero_add,
      res0, natToDigits_zero, natToDigits_one, List.flatten, List.map]
    rfl
  · rw [h3]
    simp only [expectedItems, pssRTW, renameMResourceTemplate, CompositeId.compose, Nat.zero_add,
      tpl0, natToDigits_zero, natToDigits_one, List.flatten, List.map]
    rfl
  · rw [h4]
    simp only [expectedItems, pssPW, renameMPrompt, CompositeId.compose, Nat.zero_add,
      prm0, natToDigits_zero, natToDigits_one, List.flatten, List.map]
    rfl

/-! ## C8: search `_source` augmentation (base_tools.rs, `EsBaseTools::search`)

`query_body` is a `serde_json::Map<String, Value>`: keys are unique;
`get_mut` + `push` mutates the entry in place, `insert` replaces or appends.
Both are `mapInsert` on the association-list model. -/

/-- `serde_json::Map::insert`: replace the entry in place if the key exists,
else append. -/
def mapInsert (k : String) (v : Json) : List (String × Json) → List (String × Json)
  | [] => [(k, v)]
  | (k1, v1) :: rest => if k1 = k then (k, v) :: rest else (k1, v1) :: mapInsert k v rest

/-- The `fields` handling of `EsBaseTools::search`: when `fields` is supplied
and `_source` is an array, push each field onto it; otherwise insert
`"_source": fields`; when `fields` is absent the body is untouched. -/
def augmentSource (fields : Option (List String)) (queryBody : List (String × Json)) :
    List (String × Json) :=
  match fields with
  | none => queryBody
  | some fs =>
    match List.lookup "_source" queryBody with
    | some (Json.arr values) =>
      mapInsert "_source" (Json.arr (values ++ fs.map Json.str)) queryBody
    | _ => mapInsert "_source" (Json.arr (fs.map Json.str)) queryBody

theorem lookup_mapInsert_self (k : String) (v : Json) (m : List (String × Json)) :
    List.lookup k (mapInsert k v m) = some v := by
  induction m with
  | nil => simp [mapInsert, List.lookup]
  | cons kv rest ih =>
    obtain ⟨k1, v1⟩ := kv
    by_cases h : k1 = k
    · simp [mapInsert, h, List.lookup]
    · have hb : (k == k1) = false := beq_eq_false_iff_ne.mpr (Ne.symm h)
      simp [mapInsert, h, List.lookup, ih, hb]

theorem lookup_mapInsert_other (k k1 : String) (v : Json) (m : List (String × Json))
    (h : k1 ≠ k) : List.lookup k1 (mapInsert k v m) = List.lookup k1 m := by
  have hb : (k1 == k) = false := beq_eq_false_iff_ne.mpr h
  induction m with
  | nil => simp [mapInsert, List.lookup, hb]
  | cons kv rest ih =>
    obtain ⟨k2, v2⟩ := kv
    by_cases h2 : k2 = k
    · subst h2
      simp [mapInsert, List.lookup, hb]
    · cases hbe : k1 == k2 <;> simp [mapInsert, h2, List.lookup, hbe, ih]

/-- **C8.** Search `_source` augmentation: with a non-empty `fields` list,
every field is appended in order to the body's `_source` array when `_source`
is present as an array, and otherwise `_source` is set to exactly the fields
list; keys other than `_source` are untouched; with `fields` absent the query
body is forwarded unchanged. -/
theorem search_source_augmentation (queryBody : List (String × Json)) (fs : List String) :
    augmentSource none queryBody = queryBody
    ∧ (∀ vs, fs ≠ [] → List.lookup "_source" queryBody = some (.arr vs) →
        List.lookup "_source" (augmentSource (some fs) queryBody)
          = some (.arr (vs ++ fs.map .str))
        ∧ ∀ k, k ≠ "_source" →
            List.lookup k (augmentSource (some fs) queryBody) = List.lookup k queryBody)
    ∧ (fs ≠ [] → (∀ vs, List.lookup "_source" queryBody ≠ some (.arr vs)) →
        List.lookup "_source" (augmentSource (some fs) queryBody)
          = some (.arr (fs.map .str))
        ∧ ∀ k, k ≠ "_source" →
            List.lookup k (augmentSource (some fs) queryBody) = List.lookup k queryBody) := by
  refine ⟨rfl, ?_, ?_⟩
  · intro vs _ hl
    rw [augmentSource, hl]
    exact ⟨lookup_mapInsert_self _ _ _, fun k hk => lookup_mapInsert_other _ k _ _ hk⟩
  · intro _ hvs
    rw [augmentSource]
    cases hl : List.lookup "_source" queryBody with
    | none =>
      exact ⟨lookup_mapInsert_self _ _ _, fun k hk => lookup_mapInsert_other _ k _ _ hk⟩
    | some j =>
      cases j with
      | arr vs => exact absurd hl (hvs vs)
      | null =>
        exact ⟨lookup_mapInsert_self _ _ _, fun k hk => lookup_mapInsert_other _ k _ _ hk⟩
      | bool b =>
        exact ⟨lookup_mapInsert_self _ _ _, fun k hk => lookup_mapInsert_other _ k _ _ hk⟩
      | num n =>
        exact ⟨lookup_mapInsert_self _ _ _, fun k hk => lookup_mapInsert_other _ k _ _ hk⟩
      | str s =>
        exact ⟨lookup_mapInsert_self _ _ _, fun k hk => lookup_mapInsert_other _ k _ _ hk⟩
      | obj fields =>
        exact ⟨lookup_mapInsert_self _ _ _, fun k hk => lookup_mapInsert_other _ k _ _ hk⟩

/-- Witness for C8, scenario S4: `_source = ["x"]` with `fields = ["y"]`
yields `_source = ["x","y"]`; absent `_source` with `fields = ["y"]` yields
`_source = ["y"]`. -/
theorem search_source_augmentation_witness :
    List.lookup "_source"
        (augmentSource (some ["y"]) [("_source", .arr [.str "x"])])
      = some (.arr [.str "x", .str "y"])
    ∧ List.lookup "_source" (augmentSource (some ["y"]) [("query", .null)])
      = some (.arr [.str "y"]) :=
  ⟨((search_source_augmentation [("_source", .arr [.str "x"])] ["y"]).2.1
      [.str "x"] (by simp) rfl).1,
    ((search_source_augmentation [("query", .null)] ["y"]).2.2 (by simp)
      (fun vs h => by simp [List.lookup] at h)).1⟩

/-! ## C9: ES|QL transpose (base_tools.rs, `EsBaseTools::esql`) -/

/-- A column of an `EsqlQueryResponse`. -/
structure Column where
  name : String
  type_ : String
deriving DecidableEq, Repr

/-- The inner loop of the transpose: `for (i, value) in row { obj.insert(
columns[i].name, value) }`. The out-of-bounds index `columns[i]` panics in the
source; the embedding returns `none` there. -/
def rowToObject (columns : List Column) : Nat → List Json → List (String × Json) →
    Option (List (String × Json))
  | _, [], obj => some obj
  | i, v :: rest, obj =>
    match columns[i]? with
    | none => none
    | some col => rowToObject columns (i + 1) rest (mapInsert col.name v obj)

/-- The transpose of `EsBaseTools::esql`: one object per row, keyed by column
name. -/
def esqlTranspose (columns : List Column) : List (List Json) → Option (List Json)
  | [] => some []
  | row :: rest =>
    match rowToObject columns 0 row [] with
    | none => none
    | some obj =>
      match esqlTranspose columns rest with
      | none => none
      | some objs => some (Json.obj obj :: objs)

theorem mapInsert_append (k : String) (v : Json) (obj : List (String × Json))
    (h : ∀ p ∈ obj, p.1 ≠ k) : mapInsert k v obj = obj ++ [(k, v)] := by
  induction obj with
  | nil => rfl
  | cons p rest ih =>
    obtain ⟨k1, v1⟩ := p
    have h1 : k1 ≠ k := h (k1, v1) (List.mem_cons_self _ _)
    simp only [mapInsert, h1, if_false, List.cons_append]
    rw [ih fun p hp => h p (List.mem_cons_of_mem _ hp)]

theorem rowToObject_eq (columns : List Column)
    (hnd : (columns.map Column.name).Nodup) :
    ∀ (row : List Json) (i : Nat) (obj : List (String × Json)),
      i + row.length = columns.length →
      (∀ p ∈ obj, p.1 ∈ (columns.map Column.name).take i) →
      rowToObject columns i row obj
        = some (obj ++ ((columns.map Column.name).drop i).zip row) := by
  intro row
  induction row with
  | nil =>
    intro i obj hlen _
    simp only [List.length_nil, Nat.add_zero] at hlen
    have hdrop : ((columns.map Column.name).drop i) = [] := by
      apply List.drop_eq_nil_of_le
      simp only [List.length_map]
      omega
    simp [rowToObject, hdrop]
  | cons v rest ih =>
    intro i obj hlen hobj
    have hi : i < columns.length := by
      simp only [List.length_cons] at hlen
      omega
    have hin : i < (columns.map Column.name).length := by
      simp only [List.length_map]
      omega
    have hcol : columns[i]? = some columns[i] := List.getElem?_eq_getElem hi
    have hname : (columns.map Column.name)[i] = columns[i].name := by
      simp
    have hdrop : (columns.map Column.name).drop i
        = columns[i].name :: (columns.map Column.name).drop (i + 1) := by
      rw [List.drop_eq_getElem_cons hin, hname]
    have hnotin : columns[i].name ∉ (columns.map Column.name).take i := by
      intro hmem
      have hsplit := List.take_append_drop i (columns.map Column.name)
      have hnd2 : ((columns.map Column.name).take i
          ++ (columns.map Column.name).drop i).Nodup := by
        rw [hsplit]
        exact hnd
      have hdisj := List.disjoint_of_nodup_append hnd2
      exact hdisj hmem (by rw [hdrop]; exact List.mem_cons_self _ _)
    have hstep : mapInsert columns[i].name v obj = obj ++ [(columns[i].name, v)] :=
      mapInsert_append _ _ _ fun p hp heq => hnotin (heq ▸ hobj p hp)
    have hobj2 : ∀ p ∈ obj ++ [(columns[i].name, v)],
        p.1 ∈ (columns.map Column.name).take (i + 1) := by
      intro p hp
      have htake : (columns.map Column.name).take (i + 1)
          = (columns.map Column.name).take i ++ [columns[i].name] := by
        rw [List.take_succ, List.getElem?_eq_getElem hin, hname]
        rfl
      rcases List.mem_append.mp hp with hmem | hmem
      · rw [htake]
        exact List.mem_append_left _ (hobj p hmem)
      · rw [htake]
        rcases List.mem_singleton.mp hmem with rfl
        exact List.mem_append_right _ (List.mem_singleton.mpr rfl)
    have hlen2 : (i + 1) + rest.length = columns.length := by
      simp only [List.length_cons] at hlen
      omega
    rw [rowToObject, hcol]
    simp only [hstep]
    rw [ih (i + 1) (obj ++ [(columns[i].name, v)]) hlen2 hobj2, hdrop]
    simp [List.zip_cons_cons, List.append_assoc]

/-- **C9.** ES|QL transpose: for a response whose rows all have exactly one
value per column and whose column names are distinct, the esql tool returns
one object per row, mapping each column's name to the row's value at that
column's index (the zip of column names with the row). -/
theorem esql_transpose (columns : List Column) (values : List (List Json))
    (hlen : ∀ row ∈ values, row.length = columns.length)
    (hnd : (columns.map Column.name).Nodup) :
    esqlTranspose columns values
      = some (values.map fun row => Json.obj ((columns.map Column.name).zip row)) := by
  induction values with
  | nil => simp [esqlTranspose]
  | cons row rest ih =>
    have hrow := rowToObject_eq columns hnd row 0 []
      (by simpa using hlen row (List.mem_cons_self _ _)) (by simp)
    rw [esqlTranspose, hrow]
    simp only [List.drop_zero, List.nil_append]
    rw [ih fun r hr => hlen r (List.mem_cons_of_mem _ hr)]
    simp

/-- Witness for C9, scenario S5: columns `a`, `b` with values
`[[1,2],[3,4]]` transpose to `[{a:1,b:2},{a:3,b:4}]`. -/
theorem esql_transpose_witness :
    esqlTranspose [⟨"a", "integer"⟩, ⟨"b", "integer"⟩]
        [[.num 1, .num 2], [.num 3, .num 4]]
      = some [.obj [("a", .num 1), ("b", .num 2)],
          .obj [("a", .num 3), ("b", .num 4)]] := by
  rw [esql_transpose [⟨"a", "integer"⟩, ⟨"b", "integer"⟩]
    [[.num 1, .num 2], [.num 3, .num 4]] (by simp) (by simp)]
  rfl

/-! ## C10: `get_mappings` is partial on empty responses (base_tools.rs) -/

structure MappingProperty where
  type_ : String
deriving DecidableEq, Repr

structure Mapping where
  properties : List (String × MappingProperty)
deriving DecidableEq, Repr

structure Mappings where
  mappings : Mapping
deriving DecidableEq, Repr

/-- The selection `response.values().next().unwrap()` of
`EsBaseTools::get_mappings`, with the `MappingResponse` hash map as an
association list: `none` models the panic of `unwrap` on an empty response. -/
def getMappingsFirst (response : List (String × Mappings)) : Option Mappings :=
  (response.map Prod.snd).head?

/-- **C10.** `get_mappings` is partial on empty responses: when the
`_mapping` response deserializes to an empty map, the selection of the first
mapping entry is undefined (`unwrap` of `None`, a panic rather than a tool
error); it is defined exactly when the response map is non-empty. -/
theorem get_mappings_partial :
    getMappingsFirst [] = none
    ∧ ∀ response : List (String × Mappings), response ≠ [] →
        ∃ m, getMappingsFirst response = some m := by
  refine ⟨rfl, ?_⟩
  intro response hne
  match response with
  | [] => exact absurd rfl hne
  | (k, m) :: rest => exact ⟨m, rfl⟩

/-- Witness for C10: a one-entry response selects its mapping. -/
theorem get_mappings_partial_witness :
    ∃ m, getMappingsFirst [("idx", ⟨⟨[("f", ⟨"keyword"⟩)]⟩⟩)] = some m :=
  get_mappings_partial.2 [("idx", ⟨⟨[("f", ⟨"keyword"⟩)]⟩⟩)] (List.cons_ne_nil _ _)
